import Mathlib

/-!
Shallow embedding of `calculate_balance_changes` from `src/coreum/src/main.rs`.

The Rust function works over `HashMap`s built from its list inputs; here every
map is an association list with insert-or-replace semantics, kept in first
insertion order (one admissible iteration order for the single loop that
iterates over a map).  Rust `i128` amounts are modelled as `Int` (no i128
arithmetic in the function can overflow its inputs' magnitudes by more than
small factors, and no claim concerns wrap-around).  The `f64` rates are
modelled as exact rationals, following the spec's direction to "compute with a
decimal or rational type"; the product-then-ceiling at lines 143-156 of the
source is computed exactly over `Int` by `intCeilDiv` on the rate's numerator
and denominator.  Division by zero yields 0 in the model (the Rust code's
`NaN as i128` is also 0 on the one such path reachable without a prior panic).
A call that hits an `unwrap()` on `None` is modelled as `CalcResult.panicked`;
the three `format!` error strings are modelled by the structured `CalcError`.
-/

structure Coin where
  denom : String
  amount : Int
  deriving DecidableEq

structure Balance where
  address : String
  coins : List Coin
  deriving DecidableEq

structure DenomDefinition where
  denom : String
  issuer : String
  burn_rate : Rat
  commission_rate : Rat
  deriving DecidableEq

structure MultiSend where
  inputs : List Balance
  outputs : List Balance
  deriving DecidableEq

inductive CalcError where
  | UnknownDenomination : String → CalcError
  | InsufficientBalance : String → String → CalcError
  | MismatchedSumForDenom : String → CalcError
  deriving DecidableEq

inductive CalcResult where
  | ok : List Balance → CalcResult
  | err : CalcError → CalcResult
  | panicked : CalcResult
  deriving DecidableEq

/-- Association-list lookup, modelling `HashMap::get`. -/
def mapLookup {β : Type} : List (String × β) → String → Option β
  | [], _ => none
  | (k, v) :: rest, key => if k = key then some v else mapLookup rest key

/-- Association-list insert-or-replace, modelling `HashMap::insert`.
A fresh key goes to the end, so the list order is first-insertion order. -/
def mapInsert {β : Type} : List (String × β) → String → β → List (String × β)
  | [], key, v => [(key, v)]
  | (k, w) :: rest, key, v =>
    if k = key then (key, v) :: rest else (k, w) :: mapInsert rest key v

/-- Modelling `*map.entry(key).or_insert(0) += a`. -/
def mapAdd (m : List (String × Int)) (key : String) (a : Int) : List (String × Int) :=
  match mapLookup m key with
  | some v => mapInsert m key (v + a)
  | none => mapInsert m key a

/-- Exact ceiling of the integer fraction p / q, with the 0 / 0 convention for
q = 0 (see the module comment).  `Int.fdiv` is floor division. -/
def intCeilDiv (p q : Int) : Int := if q = 0 then 0 else -(Int.fdiv (-p) q)

/-- One fee share, source lines 143-148 (and 150-155): the exact value of
`ceil(min(non_issuer_input_sum, output_total) * rate * amount / non_issuer_input_sum)`. -/
def shareAmt (rate : Rat) (nisv otv a : Int) : Int :=
  intCeilDiv (min nisv otv * rate.num * a) ((rate.den : Int) * nisv)

/-- Source lines 88-91: the inner coin map of one original balance. -/
def buildCoinMap (coins : List Coin) : List (String × Int) :=
  coins.foldl (fun m c => mapInsert m c.denom c.amount) []

/-- Source lines 86-93: `balance_map`. -/
def buildBalanceMap (original_balances : List Balance) : List (String × List (String × Int)) :=
  original_balances.foldl (fun m b => mapInsert m b.address (buildCoinMap b.coins)) []

/-- Source lines 95-98: `definition_map`. -/
def buildDefinitionMap (definitions : List DenomDefinition) : List (String × DenomDefinition) :=
  definitions.foldl (fun m d => mapInsert m d.denom d) []

/-- The two totals threaded through the first input loop (source lines 100-102). -/
structure ValState where
  input_total : List (String × Int)
  non_issuer_input_sum : List (String × Int)

/-- Source lines 104-123: the body of the first loop over one input's coins.
An input whose address or denom is absent from `balance_map` is silently
skipped; the definition and sufficiency checks run only behind those gates. -/
def validateCoins (bm : List (String × List (String × Int)))
    (dm : List (String × DenomDefinition)) (addr : String) :
    List Coin → ValState → Except CalcError ValState
  | [], st => Except.ok st
  | coin :: rest, st =>
    match mapLookup bm addr with
    | none => validateCoins bm dm addr rest st
    | some coin_map =>
      match mapLookup coin_map coin.denom with
      | none => validateCoins bm dm addr rest st
      | some balance_amount =>
        if coin.amount ≤ balance_amount then
          match mapLookup dm coin.denom with
          | some definition =>
            if addr ≠ definition.issuer then
              validateCoins bm dm addr rest
                { input_total := mapAdd st.input_total coin.denom coin.amount,
                  non_issuer_input_sum := mapAdd st.non_issuer_input_sum coin.denom coin.amount }
            else
              validateCoins bm dm addr rest st
          | none => Except.error (CalcError.UnknownDenomination coin.denom)
        else
          Except.error (CalcError.InsufficientBalance addr coin.denom)

/-- Source lines 103-124: the first loop over `multi_send_tx.inputs`. -/
def validateInputs (bm : List (String × List (String × Int)))
    (dm : List (String × DenomDefinition)) :
    List Balance → ValState → Except CalcError ValState
  | [], st => Except.ok st
  | b :: bs, st =>
    match validateCoins bm dm b.address b.coins st with
    | Except.error e => Except.error e
    | Except.ok st2 => validateInputs bm dm bs st2

/-- Source lines 126-129: accumulate one output's coins into `output_total`. -/
def outputCoinTotals : List Coin → List (String × Int) → List (String × Int)
  | [], m => m
  | c :: cs, m => outputCoinTotals cs (mapAdd m c.denom c.amount)

/-- Source lines 125-130: `output_total` over all outputs. -/
def outputTotals : List Balance → List (String × Int) → List (String × Int)
  | [], m => m
  | b :: bs, m => outputTotals bs (outputCoinTotals b.coins m)

/-- Source lines 131-135: the per-denom sum check over the entries of
`input_total`, returning the first mismatch in iteration order. -/
def checkMismatch : List (String × Int) → List (String × Int) → Option CalcError
  | [], _ => none
  | (denom, total_input) :: rest, output_total =>
    if (mapLookup output_total denom).getD 0 ≠ total_input then
      some (CalcError.MismatchedSumForDenom denom)
    else
      checkMismatch rest output_total

/-- Source lines 140-165: the body of the second loop for one input coin.
`none` models a panicking `unwrap()`; `some (bm, oc)` is the updated
`balance_map` together with the coin pushed onto `new_coins` (if any). -/
def processCoin (dm : List (String × DenomDefinition)) (nis ot : List (String × Int))
    (addr : String) (coin : Coin) (bm : List (String × List (String × Int))) :
    Option (List (String × List (String × Int)) × Option Coin) :=
  match mapLookup dm coin.denom with
  | none => some (bm, none)
  | some definition =>
    if addr ≠ definition.issuer then
      match mapLookup nis coin.denom with
      | none => none
      | some nisv =>
        match mapLookup ot coin.denom with
        | none => none
        | some otv =>
          let account_share_burn := shareAmt definition.burn_rate nisv otv coin.amount
          let account_share_commission := shareAmt definition.commission_rate nisv otv coin.amount
          match mapLookup bm addr with
          | none => none
          | some coin_map =>
            match mapLookup coin_map coin.denom with
            | none => none
            | some sender_balance =>
              some
                (mapInsert bm addr
                  (mapInsert coin_map coin.denom
                    (sender_balance - (coin.amount + account_share_burn + account_share_commission))),
                 some { denom := coin.denom,
                        amount := -coin.amount - account_share_burn - account_share_commission })
    else
      match mapLookup bm addr with
      | none => none
      | some coin_map =>
        match mapLookup coin_map coin.denom with
        | none => none
        | some sender_balance =>
          some
            (mapInsert bm addr (mapInsert coin_map coin.denom (sender_balance - coin.amount)),
             some { denom := coin.denom, amount := -coin.amount })

/-- Source lines 139-166: `new_coins` for one input balance. -/
def processCoins (dm : List (String × DenomDefinition)) (nis ot : List (String × Int))
    (addr : String) :
    List Coin → List (String × List (String × Int)) →
    Option (List (String × List (String × Int)) × List Coin)
  | [], bm => some (bm, [])
  | c :: cs, bm =>
    match processCoin dm nis ot addr c bm with
    | none => none
    | some (bm2, oc) =>
      match processCoins dm nis ot addr cs bm2 with
      | none => none
      | some (bm3, rest) =>
        some (bm3, match oc with | some pushed => pushed :: rest | none => rest)

/-- Source lines 137-168: the second loop over `multi_send_tx.inputs`, pushing
one `Balance` onto `balance_changes` per input. -/
def processInputs (dm : List (String × DenomDefinition)) (nis ot : List (String × Int)) :
    List Balance → List (String × List (String × Int)) →
    Option (List (String × List (String × Int)) × List Balance)
  | [], bm => some (bm, [])
  | b :: bs, bm =>
    match processCoins dm nis ot b.address b.coins bm with
    | none => none
    | some (bm2, new_coins) =>
      match processInputs dm nis ot bs bm2 with
      | none => none
      | some (bm3, rest) => some (bm3, { address := b.address, coins := new_coins } :: rest)

/-- Source lines 170-182: apply one output coin to `balance_map`. -/
def applyOutputCoin (bm : List (String × List (String × Int))) (addr : String) (coin : Coin) :
    List (String × List (String × Int)) :=
  match mapLookup bm addr with
  | some receiver_balance =>
    match mapLookup receiver_balance coin.denom with
    | some v => mapInsert bm addr (mapInsert receiver_balance coin.denom (v + coin.amount))
    | none => mapInsert bm addr (mapInsert receiver_balance coin.denom coin.amount)
  | none => mapInsert bm addr [(coin.denom, coin.amount)]

/-- Source lines 169-183: the loop over `multi_send_tx.outputs`.  It only
updates `balance_map`; nothing is appended to `balance_changes`. -/
def applyOutputs : List Balance → List (String × List (String × Int)) →
    List (String × List (String × Int))
  | [], bm => bm
  | b :: bs, bm => applyOutputs bs (b.coins.foldl (fun m c => applyOutputCoin m b.address c) bm)

/-- Source lines 81-185: `calculate_balance_changes`. -/
def calculate_balance_changes (original_balances : List Balance)
    (definitions : List DenomDefinition) (multi_send_tx : MultiSend) : CalcResult :=
  match validateInputs (buildBalanceMap original_balances) (buildDefinitionMap definitions)
      multi_send_tx.inputs { input_total := [], non_issuer_input_sum := [] } with
  | Except.error e => CalcResult.err e
  | Except.ok st =>
    match checkMismatch st.input_total (outputTotals multi_send_tx.outputs []) with
    | some e => CalcResult.err e
    | none =>
      match processInputs (buildDefinitionMap definitions) st.non_issuer_input_sum
          (outputTotals multi_send_tx.outputs []) multi_send_tx.inputs
          (buildBalanceMap original_balances) with
      | none => CalcResult.panicked
      | some (bm, balance_changes) =>
        let _final_map := applyOutputs multi_send_tx.outputs bm
        CalcResult.ok balance_changes

/-- The coin pushed onto `new_coins` for one input coin, as a function of the
lookup context only; `processCoin_pushed` below proves that a non-panicking
`processCoin` pushes exactly this. -/
def coinDelta (dm : List (String × DenomDefinition)) (nis ot : List (String × Int))
    (addr : String) (c : Coin) : Option Coin :=
  match mapLookup dm c.denom with
  | none => none
  | some definition =>
    if addr ≠ definition.issuer then
      some { denom := c.denom,
             amount := -c.amount
               - shareAmt definition.burn_rate ((mapLookup nis c.denom).getD 0)
                   ((mapLookup ot c.denom).getD 0) c.amount
               - shareAmt definition.commission_rate ((mapLookup nis c.denom).getD 0)
                   ((mapLookup ot c.denom).getD 0) c.amount }
    else
      some { denom := c.denom, amount := -c.amount }

/-- Plain sum of all amounts of denom `d` across a list of balances, with no
exclusion of any address (the total the claims speak about). -/
def totalAmount (bs : List Balance) (d : String) : Int :=
  (bs.map (fun b =>
    (b.coins.filterMap (fun c => if c.denom = d then some c.amount else none)).sum)).sum

/-- All signed deltas of denom `d` appearing in a result list. -/
def denomDeltas (changes : List Balance) (d : String) : List Int :=
  (changes.map (fun b =>
    b.coins.filterMap (fun c => if c.denom = d then some c.amount else none))).flatten

/-- Sum of the positive deltas of denom `d` in a result list. -/
def sumPosDeltas (changes : List Balance) (d : String) : Int :=
  ((denomDeltas changes d).filter (fun x => 0 < x)).sum

/-- Sum of the absolute values of the negative deltas of denom `d` in a result list. -/
def sumNegAbsDeltas (changes : List Balance) (d : String) : Int :=
  -((denomDeltas changes d).filter (fun x => x < 0)).sum

/-- Follows the spec's words (section 4.3, step 1): sum of input amounts of the
definition's denom coming from addresses other than the issuer. -/
def specNonIssuerInputSum (defn : DenomDefinition) (inputs : List Balance) : Int :=
  (inputs.map (fun b =>
    if b.address = defn.issuer then 0
    else (b.coins.filterMap (fun c => if c.denom = defn.denom then some c.amount else none)).sum)).sum

/-- Follows the spec's words (section 4.3, step 2): sum of output amounts of the
definition's denom going to addresses other than the issuer. -/
def specNonIssuerOutputSum (defn : DenomDefinition) (outputs : List Balance) : Int :=
  (outputs.map (fun b =>
    if b.address = defn.issuer then 0
    else (b.coins.filterMap (fun c => if c.denom = defn.denom then some c.amount else none)).sum)).sum

/-- Follows the spec's words (section 4.3, step 3):
`fee_base(d) = min(non_issuer_input_sum(d), non_issuer_output_sum(d))`. -/
def specFeeBase (defn : DenomDefinition) (tx : MultiSend) : Int :=
  min (specNonIssuerInputSum defn tx.inputs) (specNonIssuerOutputSum defn tx.outputs)

/-- Follows the spec's words (section 4.3, step 5): a sender's burn share is
`ceil(fee_base(d) * burn_rate * a / non_issuer_input_sum(d))`, computed here as
an exact integer ceiling. -/
def specShareBurn (defn : DenomDefinition) (tx : MultiSend) (a : Int) : Int :=
  intCeilDiv (specFeeBase defn tx * defn.burn_rate.num * a)
    ((defn.burn_rate.den : Int) * specNonIssuerInputSum defn tx.inputs)

theorem shareAmt_zero (nisv otv a : Int) : shareAmt 0 nisv otv a = 0 := by
  simp [shareAmt, intCeilDiv, Int.zero_fdiv]

theorem processCoin_pushed {dm : List (String × DenomDefinition)} {nis ot : List (String × Int)}
    {addr : String} {c : Coin} {bm bm2 : List (String × List (String × Int))} {oc : Option Coin}
    (h : processCoin dm nis ot addr c bm = some (bm2, oc)) :
    oc = coinDelta dm nis ot addr c := by
  unfold processCoin at h
  unfold coinDelta
  split at h
  next hdm =>
    injection h with h2
    injection h2 with _ h3
    exact h3.symm
  next definition hdm =>
    split at h
    next hne =>
      rw [if_pos hne]
      split at h
      next => exact absurd h (by simp)
      next nisv hnis =>
        split at h
        next => exact absurd h (by simp)
        next otv hot =>
          split at h
          next => exact absurd h (by simp)
          next cmv hbm =>
            split at h
            next => exact absurd h (by simp)
            next sb hcm =>
              injection h with h2
              injection h2 with _ h3
              rw [hnis, hot]
              simp only [Option.getD_some]
              exact h3.symm
    next hne =>
      rw [if_neg hne]
      split at h
      next => exact absurd h (by simp)
      next cmv hbm =>
        split at h
        next => exact absurd h (by simp)
        next sb hcm =>
          injection h with h2
          injection h2 with _ h3
          exact h3.symm

theorem processCoins_out {dm : List (String × DenomDefinition)} {nis ot : List (String × Int)}
    {addr : String} :
    ∀ {cs : List Coin} {bm : List (String × List (String × Int))}
      {out : List (String × List (String × Int)) × List Coin},
      processCoins dm nis ot addr cs bm = some out →
      out.2 = cs.filterMap (coinDelta dm nis ot addr)
  | [], bm, out, h => by
    unfold processCoins at h
    injection h with h2
    rw [h2.symm]
    simp
  | c :: cs, bm, out, h => by
    unfold processCoins at h
    split at h
    next => exact absurd h (by simp)
    next bm2 oc hpc =>
      split at h
      next => exact absurd h (by simp)
      next bm3 rest hrec =>
        injection h with h2
        have hoc := processCoin_pushed hpc
        have hrest := processCoins_out hrec
        rw [h2.symm]
        simp only [List.filterMap_cons]
        rw [hoc.symm, hrest.symm]
        cases oc with
        | none => rfl
        | some pushed => rfl

theorem processInputs_out {dm : List (String × DenomDefinition)} {nis ot : List (String × Int)} :
    ∀ {bs : List Balance} {bm : List (String × List (String × Int))}
      {out : List (String × List (String × Int)) × List Balance},
      processInputs dm nis ot bs bm = some out →
      out.2 = bs.map (fun b =>
        { address := b.address, coins := b.coins.filterMap (coinDelta dm nis ot b.address) })
  | [], bm, out, h => by
    unfold processInputs at h
    injection h with h2
    rw [h2.symm]
    simp
  | b :: bs, bm, out, h => by
    unfold processInputs at h
    split at h
    next => exact absurd h (by simp)
    next bm2 new_coins hpc =>
      split at h
      next => exact absurd h (by simp)
      next bm3 rest hrec =>
        injection h with h2
        have hc : new_coins = b.coins.filterMap (coinDelta dm nis ot b.address) :=
          processCoins_out hpc
        have hrest : rest = bs.map (fun b =>
            { address := b.address, coins := b.coins.filterMap (coinDelta dm nis ot b.address) }) :=
          processInputs_out hrec
        rw [h2.symm]
        simp only [List.map_cons]
        rw [hc, hrest]

theorem calc_ok_shape {ob : List Balance} {defs : List DenomDefinition} {tx : MultiSend}
    {changes : List Balance}
    (h : calculate_balance_changes ob defs tx = CalcResult.ok changes) :
    ∃ nis ot, changes = tx.inputs.map (fun b =>
      { address := b.address,
        coins := b.coins.filterMap (coinDelta (buildDefinitionMap defs) nis ot b.address) }) := by
  unfold calculate_balance_changes at h
  split at h
  next => exact absurd h (by simp)
  next st hval =>
    split at h
    next => exact absurd h (by simp)
    next hmis =>
      split at h
      next => exact absurd h (by simp)
      next bm balance_changes hpi =>
        have h2 : CalcResult.ok balance_changes = CalcResult.ok changes := h
        injection h2 with h3
        exact ⟨st.non_issuer_input_sum, outputTotals tx.outputs [],
          h3.symm.trans (processInputs_out hpi)⟩

theorem zip_map_self {α β : Type} (f : α → β) :
    ∀ l : List α, l.zip (l.map f) = l.map (fun x => (x, f x))
  | [] => rfl
  | a :: l => by simp [List.map_cons, List.zip_cons_cons, zip_map_self f l]

/-- Claim C1: the claim asserts every receiver named in the outputs appears in
the result with its output amount, and the issuer appears with the commission
whenever the fee base is non-zero.  The code never appends receiver or issuer
entries (its outputs loop only updates an internal map), so on a plain
1000-unit transfer with burn rate 1/2 and commission rate 1/4 the result holds
only the sender's entry, although the commission share (250) is non-zero. -/
theorem C1_credits_never_emitted :
    calculate_balance_changes [⟨"a", [⟨"d", 10000⟩]⟩] [⟨"d", "i", mkRat 1 2, mkRat 1 4⟩]
      ⟨[⟨"a", [⟨"d", 1000⟩]⟩], [⟨"r", [⟨"d", 1000⟩]⟩]⟩ = CalcResult.ok [⟨"a", [⟨"d", -1750⟩]⟩] ∧
    "r" ∉ ([⟨"a", [⟨"d", -1750⟩]⟩] : List Balance).map Balance.address ∧
    "i" ∉ ([⟨"a", [⟨"d", -1750⟩]⟩] : List Balance).map Balance.address ∧
    shareAmt (mkRat 1 4) 1000 1000 1000 ≠ 0 :=
  ⟨by decide, by decide, by decide, by decide⟩

/-- Claim C2: the claim asserts per-denom conservation, sum of debited amounts
equal to credits plus the burned total.  On a 1000-unit transfer with burn rate
1/2 the code debits 1500 but credits nothing (no receiver or issuer entries are
produced), so 1500 is not 0 plus the burn total 500. -/
theorem C2_conservation_violated :
    calculate_balance_changes [⟨"a", [⟨"d", 2000⟩]⟩] [⟨"d", "i", mkRat 1 2, 0⟩]
      ⟨[⟨"a", [⟨"d", 1000⟩]⟩], [⟨"r", [⟨"d", 1000⟩]⟩]⟩ = CalcResult.ok [⟨"a", [⟨"d", -1500⟩]⟩] ∧
    sumNegAbsDeltas [⟨"a", [⟨"d", -1500⟩]⟩] "d" ≠
      sumPosDeltas [⟨"a", [⟨"d", -1500⟩]⟩] "d" + shareAmt (mkRat 1 2) 1000 1000 1000 :=
  ⟨by decide, by decide⟩

/-- Claim C3: the claim (and the code's own comment) says the fee base is
`min(non_issuer_input_sum, non_issuer_output_sum)`.  The code uses the total
output sum instead: with 100 units sent to the issuer only, the spec fee base
is 0 and the spec burn share 0, but the code charges the share of a fee base of
100, debiting 150 instead of 100. -/
theorem C3_fee_base_ignores_issuer_outputs :
    calculate_balance_changes [⟨"a", [⟨"d", 1000⟩]⟩] [⟨"d", "i", mkRat 1 2, 0⟩]
      ⟨[⟨"a", [⟨"d", 100⟩]⟩], [⟨"i", [⟨"d", 100⟩]⟩]⟩ = CalcResult.ok [⟨"a", [⟨"d", -150⟩]⟩] ∧
    specFeeBase ⟨"d", "i", mkRat 1 2, 0⟩ ⟨[⟨"a", [⟨"d", 100⟩]⟩], [⟨"i", [⟨"d", 100⟩]⟩]⟩ = 0 ∧
    specShareBurn ⟨"d", "i", mkRat 1 2, 0⟩ ⟨[⟨"a", [⟨"d", 100⟩]⟩], [⟨"i", [⟨"d", 100⟩]⟩]⟩ 100 = 0 ∧
    shareAmt (mkRat 1 2) 100 100 100 = 50 ∧
    specShareBurn ⟨"d", "i", mkRat 1 2, 0⟩ ⟨[⟨"a", [⟨"d", 100⟩]⟩], [⟨"i", [⟨"d", 100⟩]⟩]⟩ 100 ≠
      shareAmt (mkRat 1 2) 100 100 100 :=
  ⟨by decide, by decide, by decide, by decide, by decide⟩

/-- Claim C4: the claim says a multi-send with equal per-denom input and output
totals passes the sum check.  The code accumulates only non-issuer inputs into
`input_total` but all outputs into `output_total`: with the issuer sending 25
and a non-issuer sending 75 against 100 of output, the totals match (100 each)
yet the code rejects with the mismatch error. -/
theorem C4_equal_totals_still_rejected :
    totalAmount [⟨"i", [⟨"d", 25⟩]⟩, ⟨"a", [⟨"d", 75⟩]⟩] "d"
      = totalAmount [⟨"r", [⟨"d", 100⟩]⟩] "d" ∧
    calculate_balance_changes [⟨"i", [⟨"d", 100⟩]⟩, ⟨"a", [⟨"d", 100⟩]⟩] [⟨"d", "i", 0, 0⟩]
      ⟨[⟨"i", [⟨"d", 25⟩]⟩, ⟨"a", [⟨"d", 75⟩]⟩], [⟨"r", [⟨"d", 100⟩]⟩]⟩
      = CalcResult.err (CalcError.MismatchedSumForDenom "d") :=
  ⟨by decide, by decide⟩

/-- Claim C5: the claim (and the code's own comment) requires rejection when
the sender's balance covers the bare amount but not the fees.  The code checks
only `balance >= amount`: with balance 1000, amount 1000 and burn rate 1/2 the
required debit is 1500, yet the call succeeds and debits 1500. -/
theorem C5_fees_not_covered_still_accepted :
    calculate_balance_changes [⟨"a", [⟨"d", 1000⟩]⟩] [⟨"d", "i", mkRat 1 2, 0⟩]
      ⟨[⟨"a", [⟨"d", 1000⟩]⟩], [⟨"r", [⟨"d", 1000⟩]⟩]⟩ = CalcResult.ok [⟨"a", [⟨"d", -1500⟩]⟩] ∧
    (1000 : Int) < 1000 + shareAmt (mkRat 1 2) 1000 1000 1000 + shareAmt 0 1000 1000 1000 :=
  ⟨by decide, by decide⟩

/-- Claim C6, counterexample: an input whose denom has no definition is
silently skipped when the sender is absent from `original_balances`; the call
succeeds instead of returning the unknown-denomination error the claim
requires regardless of presence. -/
theorem C6_counterexample :
    calculate_balance_changes [] [] ⟨[⟨"a", [⟨"d", 5⟩]⟩], [⟨"a2", [⟨"d", 5⟩]⟩]⟩
      = CalcResult.ok [⟨"a", []⟩] ∧
    calculate_balance_changes [] [] ⟨[⟨"a", [⟨"d", 5⟩]⟩], [⟨"a2", [⟨"d", 5⟩]⟩]⟩
      ≠ CalcResult.err (CalcError.UnknownDenomination "d") :=
  ⟨by decide, by decide⟩

/-- Claim C6, amended: the unknown-denomination error is returned only behind
the presence gates.  When the first input's first coin has a sender present in
`original_balances`, the denom present in that sender's coin map with
sufficient balance, and no definition for the denom, the call returns
`UnknownDenomination` for that denom. -/
theorem C6_unknown_denom_behind_gates (ob : List Balance) (defs : List DenomDefinition)
    (tx : MultiSend) (addr : String) (c : Coin) (cs : List Coin) (rest : List Balance)
    (cm : List (String × Int)) (bal : Int)
    (hin : tx.inputs = { address := addr, coins := c :: cs } :: rest)
    (hbm : mapLookup (buildBalanceMap ob) addr = some cm)
    (hcm : mapLookup cm c.denom = some bal)
    (hle : c.amount ≤ bal)
    (hdef : mapLookup (buildDefinitionMap defs) c.denom = none) :
    calculate_balance_changes ob defs tx
      = CalcResult.err (CalcError.UnknownDenomination c.denom) := by
  unfold calculate_balance_changes
  rw [hin]
  simp [validateInputs, validateCoins, hbm, hcm, hdef, hle]

/-- Witness for the amended claim C6 at a concrete input. -/
theorem C6_unknown_denom_behind_gates_witness :
    (MultiSend.mk [⟨"s", [⟨"du", 5⟩]⟩] [⟨"r", [⟨"du", 5⟩]⟩]).inputs
      = [{ address := "s", coins := Coin.mk "du" 5 :: [] }] ∧
    mapLookup (buildBalanceMap [⟨"s", [⟨"du", 10⟩]⟩]) "s" = some [("du", 10)] ∧
    mapLookup [("du", 10)] "du" = some 10 ∧
    (5 : Int) ≤ 10 ∧
    mapLookup (buildDefinitionMap []) "du" = none ∧
    calculate_balance_changes [⟨"s", [⟨"du", 10⟩]⟩] []
      ⟨[⟨"s", [⟨"du", 5⟩]⟩], [⟨"r", [⟨"du", 5⟩]⟩]⟩
      = CalcResult.err (CalcError.UnknownDenomination "du") :=
  ⟨by decide, by decide, by decide, by decide, by decide,
    C6_unknown_denom_behind_gates [⟨"s", [⟨"du", 10⟩]⟩] []
      ⟨[⟨"s", [⟨"du", 5⟩]⟩], [⟨"r", [⟨"du", 5⟩]⟩]⟩ "s" (Coin.mk "du" 5) [] [] [("du", 10)] 10
      (by decide) (by decide) (by decide) (by decide) (by decide)⟩

/-- Claim C7: on every successful call, an input whose sender address equals
the issuer of the coin's denomination contributes a debit entry of exactly the
negated input amount, with no burn or commission added.  The pairing of each
input with its result entry is positional (the result is one entry per input,
in order). -/
theorem C7_issuer_sender_debit_exact (ob : List Balance) (defs : List DenomDefinition)
    (tx : MultiSend) (changes : List Balance)
    (h : calculate_balance_changes ob defs tx = CalcResult.ok changes) :
    ∀ p ∈ tx.inputs.zip changes, ∀ c ∈ p.1.coins, ∀ d,
      mapLookup (buildDefinitionMap defs) c.denom = some d → p.1.address = d.issuer →
      Coin.mk c.denom (-c.amount) ∈ p.2.coins := by
  obtain ⟨nis, ot, rfl⟩ := calc_ok_shape h
  rw [zip_map_self]
  intro p hp c hc d hd hiss
  obtain ⟨b, hb, rfl⟩ := List.mem_map.mp hp
  have hiss2 : b.address = d.issuer := hiss
  refine List.mem_filterMap.mpr ⟨c, hc, ?_⟩
  unfold coinDelta
  rw [hd]
  simp [hiss2]

/-- Witness for claim C7: the issuer sends 5 of its own denom and is debited
exactly 5 even though both rates are 1/2. -/
theorem C7_issuer_sender_debit_exact_witness :
    calculate_balance_changes [⟨"i", [⟨"d", 10⟩]⟩] [⟨"d", "i", mkRat 1 2, mkRat 1 2⟩]
      ⟨[⟨"i", [⟨"d", 5⟩]⟩], [⟨"r", [⟨"d", 5⟩]⟩]⟩ = CalcResult.ok [⟨"i", [⟨"d", -5⟩]⟩] ∧
    ∀ p ∈ ([⟨"i", [⟨"d", 5⟩]⟩] : List Balance).zip [(⟨"i", [⟨"d", -5⟩]⟩ : Balance)],
      ∀ c ∈ p.1.coins, ∀ d,
        mapLookup (buildDefinitionMap [⟨"d", "i", mkRat 1 2, mkRat 1 2⟩]) c.denom = some d →
        p.1.address = d.issuer → Coin.mk c.denom (-c.amount) ∈ p.2.coins :=
  ⟨by decide,
    C7_issuer_sender_debit_exact [⟨"i", [⟨"d", 10⟩]⟩] [⟨"d", "i", mkRat 1 2, mkRat 1 2⟩]
      ⟨[⟨"i", [⟨"d", 5⟩]⟩], [⟨"r", [⟨"d", 5⟩]⟩]⟩ [⟨"i", [⟨"d", -5⟩]⟩] (by decide)⟩

/-- Claim C8: on every successful call, an input coin whose denomination has a
definition with both rates zero yields a debit entry of exactly the negated
input amount in the positionally matching result entry, and every entry of the
result belongs to a sender address, so no separate issuer credit line exists. -/
theorem C8_zero_rates_exact_debit (ob : List Balance) (defs : List DenomDefinition)
    (tx : MultiSend) (changes : List Balance)
    (h : calculate_balance_changes ob defs tx = CalcResult.ok changes) :
    (∀ p ∈ tx.inputs.zip changes, ∀ c ∈ p.1.coins, ∀ d,
        mapLookup (buildDefinitionMap defs) c.denom = some d →
        d.burn_rate = 0 → d.commission_rate = 0 →
        Coin.mk c.denom (-c.amount) ∈ p.2.coins) ∧
    (∀ nb ∈ changes, nb.address ∈ tx.inputs.map Balance.address) := by
  obtain ⟨nis, ot, rfl⟩ := calc_ok_shape h
  constructor
  · rw [zip_map_self]
    intro p hp c hc d hd hbr hcr
    obtain ⟨b, hb, rfl⟩ := List.mem_map.mp hp
    refine List.mem_filterMap.mpr ⟨c, hc, ?_⟩
    simp only [coinDelta, hd, hbr, hcr, shareAmt_zero, sub_zero]
    split <;> rfl
  · intro nb hnb
    obtain ⟨b, hb, rfl⟩ := List.mem_map.mp hnb
    exact List.mem_map.mpr ⟨b, hb, rfl⟩

/-- Witness for claim C8 at a zero-rate transfer of 5 units. -/
theorem C8_zero_rates_exact_debit_witness :
    calculate_balance_changes [⟨"a", [⟨"d", 10⟩]⟩] [⟨"d", "i", 0, 0⟩]
      ⟨[⟨"a", [⟨"d", 5⟩]⟩], [⟨"r", [⟨"d", 5⟩]⟩]⟩ = CalcResult.ok [⟨"a", [⟨"d", -5⟩]⟩] ∧
    ((∀ p ∈ ([⟨"a", [⟨"d", 5⟩]⟩] : List Balance).zip [(⟨"a", [⟨"d", -5⟩]⟩ : Balance)],
        ∀ c ∈ p.1.coins, ∀ d,
          mapLookup (buildDefinitionMap [⟨"d", "i", 0, 0⟩]) c.denom = some d →
          d.burn_rate = 0 → d.commission_rate = 0 →
          Coin.mk c.denom (-c.amount) ∈ p.2.coins) ∧
      (∀ nb ∈ ([⟨"a", [⟨"d", -5⟩]⟩] : List Balance),
        nb.address ∈ ([⟨"a", [⟨"d", 5⟩]⟩] : List Balance).map Balance.address)) :=
  ⟨by decide,
    C8_zero_rates_exact_debit [⟨"a", [⟨"d", 10⟩]⟩] [⟨"d", "i", 0, 0⟩]
      ⟨[⟨"a", [⟨"d", 5⟩]⟩], [⟨"r", [⟨"d", 5⟩]⟩]⟩ [⟨"a", [⟨"d", -5⟩]⟩] (by decide)⟩

/-- Claim C9: the claim says the function always returns a value and never
panics.  With a sender absent from `original_balances`, the validation loop
silently skips the input, and the second loop then calls `unwrap()` on the
missing `non_issuer_input_sum` entry: the call panics. -/
theorem C9_unwrap_panic_on_unknown_sender :
    calculate_balance_changes [] [⟨"d", "i", 0, 0⟩]
      ⟨[⟨"ghost", [⟨"d", 5⟩]⟩], [⟨"r", [⟨"d", 5⟩]⟩]⟩ = CalcResult.panicked := by decide

/-- Claim C10: on every successful call, the result carries exactly one entry
per input, in input order and with the inputs' addresses, and therefore no
entry for an address appearing only as a receiver or only as an issuer. -/
theorem C10_one_entry_per_input (ob : List Balance) (defs : List DenomDefinition)
    (tx : MultiSend) (changes : List Balance)
    (h : calculate_balance_changes ob defs tx = CalcResult.ok changes) :
    changes.map Balance.address = tx.inputs.map Balance.address ∧
    changes.length = tx.inputs.length ∧
    ∀ a, a ∉ tx.inputs.map Balance.address → a ∉ changes.map Balance.address := by
  obtain ⟨nis, ot, rfl⟩ := calc_ok_shape h
  have hmap : (tx.inputs.map (fun b =>
      { address := b.address,
        coins := b.coins.filterMap (coinDelta (buildDefinitionMap defs) nis ot b.address) :
        Balance })).map Balance.address = tx.inputs.map Balance.address := by
    rw [List.map_map]
    rfl
  refine ⟨hmap, by simp, ?_⟩
  intro a ha hmem
  rw [hmap] at hmem
  exact ha hmem

/-- Witness for claim C10 at a one-input transfer. -/
theorem C10_one_entry_per_input_witness :
    calculate_balance_changes [⟨"s1", [⟨"t", 7⟩]⟩] [⟨"t", "iss", 0, 0⟩]
      ⟨[⟨"s1", [⟨"t", 3⟩]⟩], [⟨"rcv", [⟨"t", 3⟩]⟩]⟩ = CalcResult.ok [⟨"s1", [⟨"t", -3⟩]⟩] ∧
    (([⟨"s1", [⟨"t", -3⟩]⟩] : List Balance).map Balance.address
        = ([⟨"s1", [⟨"t", 3⟩]⟩] : List Balance).map Balance.address ∧
      ([⟨"s1", [⟨"t", -3⟩]⟩] : List Balance).length
        = ([⟨"s1", [⟨"t", 3⟩]⟩] : List Balance).length ∧
      ∀ a, a ∉ ([⟨"s1", [⟨"t", 3⟩]⟩] : List Balance).map Balance.address →
        a ∉ ([⟨"s1", [⟨"t", -3⟩]⟩] : List Balance).map Balance.address) :=
  ⟨by decide,
    C10_one_entry_per_input [⟨"s1", [⟨"t", 7⟩]⟩] [⟨"t", "iss", 0, 0⟩]
      ⟨[⟨"s1", [⟨"t", 3⟩]⟩], [⟨"rcv", [⟨"t", 3⟩]⟩]⟩ [⟨"s1", [⟨"t", -3⟩]⟩] (by decide)⟩
